import Mathlib

/-!
Shallow embedding of the E2EE core of libQuotient (Quotient::Database,
Quotient::_impl::ConnectionEncryptionData, Quotient::EventFactory) and
proofs about it.  QString / QByteArray are modelled as String, qint64 as
Int, uint32_t as Nat.  The database and the coordinator state are modelled
as explicit functional state (lists / finite sets) with explicit state
passing.
-/

namespace LibQuotient

/-- Error codes surfaced by the Olm layer and the key store, as named by the
specification (`ReplayDetected` for a group-session index collision,
`MismatchedKey` for a wrong pickling key). -/
inductive OlmErrorCode where
  | ReplayDetected
  | MismatchedKey
  deriving DecidableEq, Repr

/-! ### Group-session index records (Database::addGroupSessionIndexRecord) -/

/-- Key of table `group_session_index`: (roomId, sessionId, idx). -/
abbrev GroupSessionIndexKey := String × String × Nat

/-- Modelled from the spec: the `group_session_index(roomId, sessionId, idx,
eventId, ts)` table with primary key `(roomId, sessionId, idx)`; the
implementation of `Database::addGroupSessionIndexRecord` and
`Database::groupSessionIndexRecord` is not under src/ (only declared in
src/Quotient/database.h). The table is modelled as an association list. -/
abbrev GroupIndexStore := List (GroupSessionIndexKey × (String × Int))

/-- Modelled from the spec: `lookupGroupIndex(roomId, sessionId, index) →
(eventId, ts) or none` (declared as `Database::groupSessionIndexRecord`). -/
def groupSessionIndexRecord (st : GroupIndexStore) (roomId sessionId : String)
    (index : Nat) : Option (String × Int) :=
  (st.find? (fun r => decide (r.1 = (roomId, sessionId, index)))).map (·.2)

/-- Modelled from the spec: `recordGroupIndex` alias
`Database::addGroupSessionIndexRecord` — "atomically check
`recordGroupIndex` — if the index was previously recorded with a different
eventId, fail with `ReplayDetected`; otherwise record (or confirm) and
return". Returns the recorded (eventId, ts) pair together with the new
store. -/
def addGroupSessionIndexRecord (st : GroupIndexStore) (roomId sessionId : String)
    (index : Nat) (eventId : String) (ts : Int) :
    Except OlmErrorCode (GroupIndexStore × String × Int) :=
  match groupSessionIndexRecord st roomId sessionId index with
  | none => .ok (((roomId, sessionId, index), (eventId, ts)) :: st, eventId, ts)
  | some (e, t) =>
    if e = eventId then .ok (st, e, t) else .error .ReplayDetected

/-- Well-formedness of the group-index table: the primary key
(roomId, sessionId, idx) is unique, so at most one (eventId, ts) pair is
recorded per key. -/
def GroupIndexWF (st : GroupIndexStore) : Prop :=
  (st.map Prod.fst).Nodup

theorem groupSessionIndexRecord_none_not_mem {st : GroupIndexStore}
    {roomId sessionId : String} {index : Nat}
    (h : groupSessionIndexRecord st roomId sessionId index = none) :
    (roomId, sessionId, index) ∉ st.map Prod.fst := by
  intro hmem
  rcases List.mem_map.mp hmem with ⟨r, hr, hfst⟩
  have hnone : st.find? (fun r => decide (r.1 = (roomId, sessionId, index))) = none := by
    unfold groupSessionIndexRecord at h
    cases hcase : st.find? (fun r => decide (r.1 = (roomId, sessionId, index))) with
    | none => rfl
    | some v => simp [hcase] at h
  have hfind := List.find?_eq_none.mp hnone r hr
  simp [hfst] at hfind

/-- C1: For every (roomId, sessionId, index) triple at most one (eventId, ts)
pair is ever recorded by `addGroupSessionIndexRecord`: recording at a fresh
key stores the pair and keeps the primary key unique; repeating with the
same eventId returns the already-recorded pair and leaves the store
unchanged; a second record with a different eventId is rejected as
`ReplayDetected`. -/
theorem addGroupSessionIndexRecord_at_most_once
    (st st₂ st₃ : GroupIndexStore) (roomId sessionId : String) (index : Nat)
    (eventId e₂ : String) (ts t₂ t₃ : Int)
    (hwf : GroupIndexWF st)
    (habs : groupSessionIndexRecord st roomId sessionId index = none)
    (hsame : groupSessionIndexRecord st₂ roomId sessionId index = some (eventId, t₂))
    (hdiff : groupSessionIndexRecord st₃ roomId sessionId index = some (e₂, t₃))
    (hne : e₂ ≠ eventId) :
    (addGroupSessionIndexRecord st roomId sessionId index eventId ts
        = .ok (((roomId, sessionId, index), (eventId, ts)) :: st, eventId, ts)
      ∧ GroupIndexWF (((roomId, sessionId, index), (eventId, ts)) :: st))
    ∧ addGroupSessionIndexRecord st₂ roomId sessionId index eventId ts
        = .ok (st₂, eventId, t₂)
    ∧ addGroupSessionIndexRecord st₃ roomId sessionId index eventId ts
        = .error .ReplayDetected := by
  refine ⟨⟨?_, ?_⟩, ?_, ?_⟩
  · simp [addGroupSessionIndexRecord, habs]
  · exact List.Nodup.cons (groupSessionIndexRecord_none_not_mem habs) hwf
  · simp [addGroupSessionIndexRecord, hsame]
  · simp [addGroupSessionIndexRecord, hdiff, hne]

/-- C1 witness: concrete instantiation of
`addGroupSessionIndexRecord_at_most_once`. -/
theorem addGroupSessionIndexRecord_at_most_once_witness :
    (addGroupSessionIndexRecord [] "!r" "S" 5 "$a" 3
        = .ok ([(("!r", "S", 5), ("$a", 3))], "$a", 3)
      ∧ GroupIndexWF [(("!r", "S", 5), ("$a", 3))])
    ∧ addGroupSessionIndexRecord [(("!r", "S", 5), ("$a", 7))] "!r" "S" 5 "$a" 3
        = .ok ([(("!r", "S", 5), ("$a", 7))], "$a", 7)
    ∧ addGroupSessionIndexRecord [(("!r", "S", 5), ("$b", 7))] "!r" "S" 5 "$a" 3
        = .error .ReplayDetected :=
  addGroupSessionIndexRecord_at_most_once
    [] [(("!r", "S", 5), ("$a", 7))] [(("!r", "S", 5), ("$b", 7))]
    "!r" "S" 5 "$a" "$b" 3 7 7
    (by simp [GroupIndexWF]) (by rfl) (by rfl) (by rfl) (by decide)

/-! ### Pickling and account setup (Database::setupOlmAccount,
ConnectionEncryptionData::setup) -/

/-- A 32-byte pickling secret, modelled as an opaque value. -/
structure PicklingKey where
  key : Nat
  deriving DecidableEq, Repr

/-- The long-lived identity of an account: ed25519 and curve25519 public
keys. -/
structure AccountIdentity where
  ed25519 : String
  curve25519 : String
  deriving DecidableEq, Repr

/-- An Olm account: its identity keypair material. -/
structure QOlmAccount where
  identity : AccountIdentity
  deriving DecidableEq, Repr

/-- A pickled account: the account payload encrypted under a pickling key.
Decryption succeeds only with the key it was encrypted under. -/
structure PickledAccount where
  payload : QOlmAccount
  encryptedUnder : Nat
  deriving DecidableEq, Repr

/-- Modelled from the spec: "all pickle blobs are encrypted with the
PicklingKey supplied at open" — pickling an account under a key. -/
def pickleAccount (a : QOlmAccount) (k : PicklingKey) : PickledAccount :=
  ⟨a, k.key⟩

/-- Modelled from the spec: unpickling checks the pickling key; a wrong key
yields `MismatchedKey`. -/
def unpickleAccount (p : PickledAccount) (k : PicklingKey) :
    Except OlmErrorCode QOlmAccount :=
  if p.encryptedUnder = k.key then .ok p.payload else .error .MismatchedKey

/-- Modelled from the spec: `Database::setupOlmAccount` (declared only in
src/Quotient/database.h) — `loadOrCreateAccount() → (account, errorKind?)`:
load the stored pickled account, or create and store a fresh one on first
run. -/
def setupOlmAccount (store : Option PickledAccount) (k : PicklingKey)
    (fresh : QOlmAccount) : Except OlmErrorCode (QOlmAccount × PickledAccount) :=
  match store with
  | none => .ok (fresh, pickleAccount fresh k)
  | some p =>
    match unpickleAccount p k with
    | .ok a => .ok (a, p)
    | .error e => .error e

/-- The coordinator instance produced by a successful setup. -/
structure EncryptionDataInstance where
  olmAccount : QOlmAccount
  storedPickle : PickledAccount
  firstSync : Bool
  deriving DecidableEq, Repr

/-- Modelled from the spec: `ConnectionEncryptionData::setup` (declared only
in src/Quotient/connectionencryptiondata_p.h) — "load/create account; load
all state; mark firstSync=true"; "Setup errors abort initialisation". -/
def setup (store : Option PickledAccount) (k : PicklingKey)
    (fresh : QOlmAccount) : Except OlmErrorCode EncryptionDataInstance :=
  match setupOlmAccount store k fresh with
  | .ok (a, p) => .ok ⟨a, p, true⟩
  | .error e => .error e

/-- The coordinator lifecycle phases of the spec state machine. -/
inductive CoordinatorPhase where
  | Uninitialized
  | Ready
  deriving DecidableEq, Repr

/-- Modelled from the spec: "Setup errors abort initialisation and leave the
coordinator in `Uninitialized`" — the phase after attempting setup. -/
def phaseAfterSetup (store : Option PickledAccount) (k : PicklingKey)
    (fresh : QOlmAccount) : CoordinatorPhase :=
  match setup store k fresh with
  | .ok _ => .Ready
  | .error _ => .Uninitialized

/-- C2: opening a store created with pickling key P using a different key
fails with `MismatchedKey` and leaves the coordinator `Uninitialized`; any
setup failure leaves `Uninitialized`; with the correct key, reopening
yields the identical ed25519/curve25519 identity and an equivalent pickled
account. -/
theorem setup_pickling_key
    (a fresh fresh₂ : QOlmAccount) (P Q : PicklingKey)
    (store₂ : Option PickledAccount) (e : OlmErrorCode)
    (hne : Q ≠ P)
    (hfail : setup store₂ Q fresh₂ = .error e) :
    setup (some (pickleAccount a P)) Q fresh = .error .MismatchedKey
    ∧ phaseAfterSetup (some (pickleAccount a P)) Q fresh = .Uninitialized
    ∧ phaseAfterSetup store₂ Q fresh₂ = .Uninitialized
    ∧ setup (some (pickleAccount a P)) P fresh
        = .ok ⟨a, pickleAccount a P, true⟩ := by
  have hkey : (pickleAccount a P).encryptedUnder ≠ Q.key := by
    intro h
    exact hne (by cases Q; cases P; simpa [pickleAccount] using h.symm)
  refine ⟨?_, ?_, ?_, ?_⟩
  · simp [setup, setupOlmAccount, unpickleAccount, hkey]
  · simp [phaseAfterSetup, setup, setupOlmAccount, unpickleAccount, hkey]
  · simp [phaseAfterSetup, hfail]
  · simp [setup, setupOlmAccount, unpickleAccount, pickleAccount]

/-- C2 witness: concrete instantiation of `setup_pickling_key`. -/
theorem setup_pickling_key_witness :
    setup (some (pickleAccount ⟨⟨"ed", "curve"⟩⟩ ⟨1⟩)) ⟨2⟩ ⟨⟨"e2", "c2"⟩⟩
        = .error .MismatchedKey
    ∧ phaseAfterSetup (some (pickleAccount ⟨⟨"ed", "curve"⟩⟩ ⟨1⟩)) ⟨2⟩ ⟨⟨"e2", "c2"⟩⟩
        = .Uninitialized
    ∧ phaseAfterSetup (some (pickleAccount ⟨⟨"ed", "curve"⟩⟩ ⟨1⟩)) ⟨2⟩ ⟨⟨"e2", "c2"⟩⟩
        = .Uninitialized
    ∧ setup (some (pickleAccount ⟨⟨"ed", "curve"⟩⟩ ⟨1⟩)) ⟨1⟩ ⟨⟨"e2", "c2"⟩⟩
        = .ok ⟨⟨⟨"ed", "curve"⟩⟩, pickleAccount ⟨⟨"ed", "curve"⟩⟩ ⟨1⟩, true⟩ :=
  setup_pickling_key ⟨⟨"ed", "curve"⟩⟩ ⟨⟨"e2", "c2"⟩⟩ ⟨⟨"e2", "c2"⟩⟩ ⟨1⟩ ⟨2⟩
    (some (pickleAccount ⟨⟨"ed", "curve"⟩⟩ ⟨1⟩)) .MismatchedKey
    (by decide) (by rfl)

/-! ### Recipient tracking per session (Database::setDevicesReceivedKey,
Database::devicesWithoutKey) -/

/-- Modelled from the spec: one row of the `sent_megolm_sessions(roomId,
sessionId, userId, deviceId, curveKey, index)` table. The session id type is
a parameter (QByteArray in the source; Nat is used for the outbound-session
model). -/
structure SentKeyRecord (σ : Type) where
  roomId : String
  sessionId : σ
  userId : String
  deviceId : String
  curveKey : String
  index : Nat
  deriving DecidableEq, Repr

/-- Modelled from the spec: `markDevicesReceivedKey(roomId, [(user, device,
curveKey)], sessionId, index)` (declared as
`Database::setDevicesReceivedKey`) — records that each listed device
received the key of (roomId, sessionId) at the given index. -/
def setDevicesReceivedKey {σ : Type} (st : List (SentKeyRecord σ))
    (roomId : String) (devices : List (String × String × String))
    (sessionId : σ) (index : Nat) : List (SentKeyRecord σ) :=
  st ++ devices.map (fun d => ⟨roomId, sessionId, d.1, d.2.1, d.2.2, index⟩)

/-- Whether the store records that (userId, deviceId) received the key of
(roomId, sessionId). -/
def sentKeyRecorded {σ : Type} [DecidableEq σ] (st : List (SentKeyRecord σ))
    (roomId : String) (sessionId : σ) (userId deviceId : String) : Bool :=
  st.any (fun r => decide (r.roomId = roomId ∧ r.sessionId = sessionId
    ∧ r.userId = userId ∧ r.deviceId = deviceId))

/-- Modelled from the spec: `devicesMissingKey(roomId, candidates, sessionId)
→ subset` (declared as `Database::devicesWithoutKey`, returning the
candidate (userId, deviceId) pairs that have not received the key yet). -/
def devicesWithoutKey {σ : Type} [DecidableEq σ] (st : List (SentKeyRecord σ))
    (roomId : String) (devices : List (String × String)) (sessionId : σ) :
    List (String × String) :=
  devices.filter (fun d => !sentKeyRecorded st roomId sessionId d.1 d.2)

/-- C3: starting from a store with no records for (roomId, sessionId), after
`setDevicesReceivedKey` for device set D, `devicesWithoutKey` applied to a
candidate set D' returns exactly D' minus the devices of D. -/
theorem devicesWithoutKey_after_setDevicesReceivedKey {σ : Type} [DecidableEq σ]
    (st : List (SentKeyRecord σ)) (roomId : String)
    (D : List (String × String × String)) (Dc : List (String × String))
    (sessionId : σ) (index : Nat)
    (hfresh : ∀ r ∈ st, ¬(r.roomId = roomId ∧ r.sessionId = sessionId)) :
    devicesWithoutKey (setDevicesReceivedKey st roomId D sessionId index)
        roomId Dc sessionId
      = Dc.filter (fun d => !D.any (fun t => decide (t.1 = d.1 ∧ t.2.1 = d.2))) := by
  unfold devicesWithoutKey
  apply List.filter_congr
  intro d _
  have hrec : sentKeyRecorded (setDevicesReceivedKey st roomId D sessionId index)
      roomId sessionId d.1 d.2
      = D.any (fun t => decide (t.1 = d.1 ∧ t.2.1 = d.2)) := by
    unfold sentKeyRecorded setDevicesReceivedKey
    rw [List.any_append]
    have hst : st.any (fun r => decide (r.roomId = roomId ∧ r.sessionId = sessionId
        ∧ r.userId = d.1 ∧ r.deviceId = d.2)) = false := by
      rw [List.any_eq_false]
      intro r hr
      simp only [decide_eq_true_eq]
      rintro ⟨h1, h2, _, _⟩
      exact hfresh r hr ⟨h1, h2⟩
    rw [hst, Bool.false_or]
    induction D with
    | nil => rfl
    | cons t ts ih =>
      simp only [List.map_cons, List.any_cons, ih]
      simp
  rw [hrec]

/-- C3 witness: concrete instantiation of
`devicesWithoutKey_after_setDevicesReceivedKey` with D = {(u1,d1), (u2,d2)}
and Dc = {(u1,d1), (u3,d3)}. -/
theorem devicesWithoutKey_after_setDevicesReceivedKey_witness :
    devicesWithoutKey
        (setDevicesReceivedKey ([] : List (SentKeyRecord String)) "!r"
          [("u1", "d1", "c1"), ("u2", "d2", "c2")] "S" 0)
        "!r" [("u1", "d1"), ("u3", "d3")] "S"
      = [("u1", "d1"), ("u3", "d3")].filter
          (fun d => Bool.not (List.any [("u1", "d1", "c1"), ("u2", "d2", "c2")]
            (fun t => decide (t.1 = d.1 ∧ t.2.1 = d.2)))) :=
  devicesWithoutKey_after_setDevicesReceivedKey [] "!r"
    [("u1", "d1", "c1"), ("u2", "d2", "c2")] [("u1", "d1"), ("u3", "d3")]
    "S" 0 (by simp)

/-! ### Device tracking (trackedUsers / outdatedUsers) -/

/-- The device-tracking part of `ConnectionEncryptionData`: the
`trackedUsers` and `outdatedUsers` sets (fields of
src/Quotient/connectionencryptiondata_p.h). -/
structure DeviceTrackingState where
  trackedUsers : Finset String
  outdatedUsers : Finset String
  deriving DecidableEq

/-- Modelled from the spec: `markOutdated(users)`: "adds to `outdated`, only
if in `tracked`". -/
def markOutdated (r : DeviceTrackingState) (users : Finset String) :
    DeviceTrackingState :=
  { r with outdatedUsers :=
      r.outdatedUsers ∪ users.filter (· ∈ r.trackedUsers) }

/-- Modelled from the spec: `trackIfNeeded(users)`: "adds to `tracked` and
`outdated`". -/
def trackIfNeeded (r : DeviceTrackingState) (users : Finset String) :
    DeviceTrackingState :=
  ⟨r.trackedUsers ∪ users, r.outdatedUsers ∪ users⟩

/-- Modelled from the spec: `mergeQueryResult(response)`: "on success remove
user from `outdated`" — `succeeded` is the set of users whose device records
merged successfully. -/
def mergeQueryResult (r : DeviceTrackingState) (succeeded : Finset String) :
    DeviceTrackingState :=
  { r with outdatedUsers := r.outdatedUsers \ succeeded }

/-- Modelled from the spec: `ConnectionEncryptionData::encryptionUpdate`
(declared only in src/Quotient/connectionencryptiondata_p.h) — "adds users
to tracked/outdated as needed". -/
def encryptionUpdate (r : DeviceTrackingState) (users : Finset String) :
    DeviceTrackingState :=
  trackIfNeeded r users

/-- Modelled from the spec: the sync merge of device-list deltas
(`consumeDevicesList`): `changed` users are marked outdated, `left` users
are dropped from both sets. -/
def consumeDevicesList (r : DeviceTrackingState)
    (changed left : Finset String) : DeviceTrackingState :=
  let r₁ := markOutdated r changed
  ⟨r₁.trackedUsers \ left, r₁.outdatedUsers \ left⟩

/-- C4: `outdatedUsers ⊆ trackedUsers` is preserved by `mergeQueryResult`,
`encryptionUpdate` and the sync merge (`consumeDevicesList`), and
`markOutdated` adds a user to the outdated set only if that user is already
tracked. -/
theorem outdated_subset_tracked
    (r : DeviceTrackingState) (users succeeded changed left : Finset String)
    (u : String)
    (hsub : r.outdatedUsers ⊆ r.trackedUsers)
    (hu : u ∈ (markOutdated r users).outdatedUsers) :
    (mergeQueryResult r succeeded).outdatedUsers
        ⊆ (mergeQueryResult r succeeded).trackedUsers
    ∧ (encryptionUpdate r users).outdatedUsers
        ⊆ (encryptionUpdate r users).trackedUsers
    ∧ (consumeDevicesList r changed left).outdatedUsers
        ⊆ (consumeDevicesList r changed left).trackedUsers
    ∧ (markOutdated r users).outdatedUsers
        ⊆ (markOutdated r users).trackedUsers
    ∧ (u ∈ r.outdatedUsers ∨ u ∈ r.trackedUsers) := by
  have hmark : ∀ us : Finset String, (markOutdated r us).outdatedUsers
      ⊆ (markOutdated r us).trackedUsers := by
    intro us x hx
    simp only [markOutdated, Finset.mem_union, Finset.mem_filter] at hx ⊢
    rcases hx with hx | ⟨_, hx⟩
    · exact hsub hx
    · exact hx
  refine ⟨?_, ?_, ?_, hmark users, ?_⟩
  · intro x hx
    simp only [mergeQueryResult, Finset.mem_sdiff] at hx
    exact hsub hx.1
  · intro x hx
    simp only [encryptionUpdate, trackIfNeeded, Finset.mem_union] at hx ⊢
    rcases hx with hx | hx
    · exact Or.inl (hsub hx)
    · exact Or.inr hx
  · intro x hx
    simp only [consumeDevicesList, Finset.mem_sdiff] at hx ⊢
    exact ⟨hmark changed hx.1, hx.2⟩
  · simp only [markOutdated, Finset.mem_union, Finset.mem_filter] at hu
    rcases hu with hu | ⟨_, hu⟩
    · exact Or.inl hu
    · exact Or.inr hu

/-- C4 witness: concrete instantiation of `outdated_subset_tracked`. -/
theorem outdated_subset_tracked_witness :
    (mergeQueryResult ⟨{"a", "b"}, {"b"}⟩ {"b"}).outdatedUsers
        ⊆ (mergeQueryResult ⟨{"a", "b"}, {"b"}⟩ {"b"}).trackedUsers
    ∧ (encryptionUpdate ⟨{"a", "b"}, {"b"}⟩ {"c"}).outdatedUsers
        ⊆ (encryptionUpdate ⟨{"a", "b"}, {"b"}⟩ {"c"}).trackedUsers
    ∧ (consumeDevicesList ⟨{"a", "b"}, {"b"}⟩ {"a"} {"b"}).outdatedUsers
        ⊆ (consumeDevicesList ⟨{"a", "b"}, {"b"}⟩ {"a"} {"b"}).trackedUsers
    ∧ (markOutdated ⟨{"a", "b"}, {"b"}⟩ {"c"}).outdatedUsers
        ⊆ (markOutdated ⟨{"a", "b"}, {"b"}⟩ {"c"}).trackedUsers
    ∧ ("b" ∈ DeviceTrackingState.outdatedUsers ⟨{"a", "b"}, {"b"}⟩
        ∨ "b" ∈ DeviceTrackingState.trackedUsers ⟨{"a", "b"}, {"b"}⟩) :=
  outdated_subset_tracked ⟨{"a", "b"}, {"b"}⟩ {"c"} {"b"} {"a"} {"b"} "b"
    (by decide) (by decide)

/-! ### Key-query coordination (currentQueryKeysJob /
encryptionUpdateRequired) -/

/-- The key-query coordination state of `ConnectionEncryptionData`:
`outdatedUsers`, the outstanding `QueryKeysJob`s (each carrying the user
set it queries; the source holds at most one in `currentQueryKeysJob`, the
model keeps a list so that "at most one in flight" is a provable invariant
rather than a typing artefact), and `encryptionUpdateRequired`. -/
structure KeyQueryState where
  outdatedUsers : Finset String
  inFlight : List (Finset String)
  encryptionUpdateRequired : Bool
  deriving DecidableEq

/-- The initial coordinator state: nothing outdated, no job in flight. -/
def initKeyQueryState : KeyQueryState := ⟨∅, [], false⟩

/-- External stimuli of the key-query coordinator. -/
inductive KeyQueryEvent where
  | markOutdated (users : Finset String)
  | tick
  | response

/-- Modelled from the spec: the `KeyQueryCoordinator` step function —
`scheduleUpdate(users)` unions into the outdated set (setting
`encryptionUpdateRequired` when a query is running); `tick()` issues a
`QueryKeys` job for the outdated snapshot if none is in flight; on response
the job completes and, "if `encryptionUpdateRequired` was set while the
query ran", the coordinator re-ticks (the implementation of
`loadOutdatedUserDevices`/`handleQueryKeys` is not under src/). -/
def keyQueryTick (s : KeyQueryState) : KeyQueryState :=
  if s.inFlight = [] ∧ s.outdatedUsers.Nonempty then
    ⟨∅, [s.outdatedUsers], false⟩
  else s

def keyQueryStep (s : KeyQueryState) : KeyQueryEvent → KeyQueryState
  | .markOutdated us =>
    { s with outdatedUsers := s.outdatedUsers ∪ us,
             encryptionUpdateRequired :=
               s.encryptionUpdateRequired || !s.inFlight.isEmpty }
  | .tick => keyQueryTick s
  | .response =>
    match s.inFlight with
    | [] => s
    | _ :: rest =>
      let s₁ : KeyQueryState :=
        ⟨s.outdatedUsers, rest, false⟩
      if s.encryptionUpdateRequired then keyQueryTick s₁ else s₁

/-- Runs the coordinator from a state through a list of events. -/
def keyQueryRun (s : KeyQueryState) : List KeyQueryEvent → KeyQueryState
  | [] => s
  | e :: es => keyQueryRun (keyQueryStep s e) es

theorem keyQueryStep_inFlight_le_one (s : KeyQueryState) (e : KeyQueryEvent)
    (h : s.inFlight.length ≤ 1) : (keyQueryStep s e).inFlight.length ≤ 1 := by
  cases e with
  | markOutdated us => simpa [keyQueryStep] using h
  | tick =>
    by_cases hc : s.inFlight = [] ∧ s.outdatedUsers.Nonempty
    · simp [keyQueryStep, keyQueryTick, hc]
    · simpa [keyQueryStep, keyQueryTick, hc] using h
  | response =>
    cases hf : s.inFlight with
    | nil => simp [keyQueryStep, hf]
    | cons j rest =>
      have hlen : (j :: rest).length ≤ 1 := hf ▸ h
      have hrest : rest = [] := by
        simp only [List.length_cons] at hlen
        exact List.length_eq_zero.mp (by omega)
      by_cases hreq : s.encryptionUpdateRequired
      · by_cases hne : s.outdatedUsers.Nonempty
        · simp [keyQueryStep, keyQueryTick, hf, hreq, hrest, hne]
        · simp [keyQueryStep, keyQueryTick, hf, hreq, hrest, hne]
      · simp [keyQueryStep, keyQueryTick, hf, hreq, hrest]

/-- C5: (a) from the initial state, every event sequence leaves at most one
`QueryKeys` job in flight; (b) if users become outdated while a job is in
flight, completion of that job issues exactly one follow-up query covering
those users. -/
theorem at_most_one_query_keys_job
    (evs : List KeyQueryEvent) (s : KeyQueryState) (j us : Finset String)
    (hflight : s.inFlight = [j]) (hus : us.Nonempty) :
    (keyQueryRun initKeyQueryState evs).inFlight.length ≤ 1
    ∧ (keyQueryStep (keyQueryStep s (.markOutdated us)) .response).inFlight
        = [s.outdatedUsers ∪ us]
    ∧ us ⊆ s.outdatedUsers ∪ us := by
  refine ⟨?_, ?_, Finset.subset_union_right⟩
  · have hrun : ∀ (l : List KeyQueryEvent) (t : KeyQueryState),
        t.inFlight.length ≤ 1 → (keyQueryRun t l).inFlight.length ≤ 1 := by
      intro l
      induction l with
      | nil => intro t ht; exact ht
      | cons e es ih =>
        intro t ht
        exact ih _ (keyQueryStep_inFlight_le_one t e ht)
    exact hrun evs initKeyQueryState (by simp [initKeyQueryState])
  · have hmark : keyQueryStep s (.markOutdated us)
        = ⟨s.outdatedUsers ∪ us, s.inFlight, true⟩ := by
      simp [keyQueryStep, hflight]
    rw [hmark]
    simp [keyQueryStep, keyQueryTick, hflight,
      Finset.Nonempty.mono Finset.subset_union_right hus]

/-- C5 witness: concrete instantiation of `at_most_one_query_keys_job` with
a job for {u1, u2} in flight and {u3} becoming outdated meanwhile. -/
theorem at_most_one_query_keys_job_witness :
    (keyQueryRun initKeyQueryState
        [.markOutdated {"u1"}, .tick, .markOutdated {"u2"}, .response]).inFlight.length ≤ 1
    ∧ (keyQueryStep (keyQueryStep ⟨∅, [{"u1", "u2"}], false⟩
          (.markOutdated {"u3"})) .response).inFlight
        = [(∅ : Finset String) ∪ {"u3"}]
    ∧ {"u3"} ⊆ (∅ : Finset String) ∪ {"u3"} :=
  at_most_one_query_keys_job
    [.markOutdated {"u1"}, .tick, .markOutdated {"u2"}, .response]
    ⟨∅, [{"u1", "u2"}], false⟩ {"u1", "u2"} {"u3"} (by rfl) (by decide)

/-! ### Pending encrypted to-device events (pendingEncryptedEvents) -/

/-- An inbound `m.room.encrypted` to-device event, carrying its sender curve
key and an opaque payload. -/
structure EncryptedToDeviceEvent where
  senderKey : String
  payload : String
  deriving DecidableEq, Repr

/-- The to-device pipeline state: the set of sender curve keys that have at
least one Olm session, the `pendingEncryptedEvents` buffer (a field of
src/Quotient/connectionencryptiondata_p.h), and the log of events decrypted
and dispatched so far. -/
structure ToDevicePipelineState where
  sessionKeys : Finset String
  pendingEncryptedEvents : List EncryptedToDeviceEvent
  dispatched : List EncryptedToDeviceEvent
  deriving DecidableEq

/-- Modelled from the spec:
`ConnectionEncryptionData::handleEncryptedToDeviceEvent` (only declared
under src/) — "if no Olm session exists, append to `pendingEncryptedEvents`
and stop; otherwise attempt" decryption and dispatch. -/
def handleEncryptedToDeviceEvent (st : ToDevicePipelineState)
    (e : EncryptedToDeviceEvent) : ToDevicePipelineState :=
  if e.senderKey ∈ st.sessionKeys then
    { st with dispatched := st.dispatched ++ [e] }
  else
    { st with pendingEncryptedEvents := st.pendingEncryptedEvents ++ [e] }

/-- A new Olm session for a sender curve key appears. -/
def addOlmSessionFor (st : ToDevicePipelineState) (senderKey : String) :
    ToDevicePipelineState :=
  { st with sessionKeys := insert senderKey st.sessionKeys }

/-- Modelled from the spec: "After batch processing, drain
`pendingEncryptedEvents` for any sender key whose session now exists;
events that still have no session are left buffered" — drained events are
decrypted and dispatched in buffer order and removed from the buffer. -/
def drainPendingEvents (st : ToDevicePipelineState) : ToDevicePipelineState :=
  { st with
    pendingEncryptedEvents :=
      st.pendingEncryptedEvents.filter (fun e => e.senderKey ∉ st.sessionKeys),
    dispatched := st.dispatched
      ++ st.pendingEncryptedEvents.filter (fun e => e.senderKey ∈ st.sessionKeys) }

/-- C6: an encrypted to-device event whose sender has no Olm session is
buffered, not dispatched; a drain dispatches exactly the buffered events
whose sender key has a session, in buffer order, and leaves the others
buffered; a second drain dispatches nothing more (each buffered event is
drained exactly once); and once a session for the sender key of a buffered
event appears, the next drain dispatches it and removes it from the
buffer. -/
theorem pending_encrypted_events_drained_once
    (st : ToDevicePipelineState) (e : EncryptedToDeviceEvent)
    (hnosession : e.senderKey ∉ st.sessionKeys) :
    ((handleEncryptedToDeviceEvent st e).pendingEncryptedEvents
        = st.pendingEncryptedEvents ++ [e]
      ∧ (handleEncryptedToDeviceEvent st e).dispatched = st.dispatched)
    ∧ ((drainPendingEvents st).dispatched = st.dispatched
        ++ st.pendingEncryptedEvents.filter (fun x => x.senderKey ∈ st.sessionKeys)
      ∧ (drainPendingEvents st).pendingEncryptedEvents
        = st.pendingEncryptedEvents.filter (fun x => x.senderKey ∉ st.sessionKeys))
    ∧ (drainPendingEvents (drainPendingEvents st)).dispatched
        = (drainPendingEvents st).dispatched
    ∧ (e ∈ (drainPendingEvents
            (addOlmSessionFor (handleEncryptedToDeviceEvent st e) e.senderKey)).dispatched
      ∧ e ∉ (drainPendingEvents
            (addOlmSessionFor (handleEncryptedToDeviceEvent st e) e.senderKey)).pendingEncryptedEvents) := by
  refine ⟨⟨?_, ?_⟩, ⟨rfl, rfl⟩, ?_, ?_, ?_⟩
  · simp [handleEncryptedToDeviceEvent, hnosession]
  · simp [handleEncryptedToDeviceEvent, hnosession]
  · have hnil : ((drainPendingEvents st).pendingEncryptedEvents.filter
        (fun x => x.senderKey ∈ (drainPendingEvents st).sessionKeys)) = [] := by
      simp only [drainPendingEvents, List.filter_filter]
      apply List.filter_eq_nil_iff.mpr
      intro x _
      by_cases hx : x.senderKey ∈ st.sessionKeys <;> simp [hx]
    simp only [drainPendingEvents] at hnil ⊢
    simp [hnil]
  · simp [drainPendingEvents, addOlmSessionFor, handleEncryptedToDeviceEvent,
      hnosession, List.mem_filter]
  · simp [drainPendingEvents, addOlmSessionFor, handleEncryptedToDeviceEvent,
      hnosession, List.mem_filter]

/-- C6 witness: concrete instantiation of
`pending_encrypted_events_drained_once` with one buffered event. -/
theorem pending_encrypted_events_drained_once_witness :
    ((handleEncryptedToDeviceEvent ⟨{"k0"}, [], []⟩ ⟨"k1", "m"⟩).pendingEncryptedEvents
        = [] ++ [⟨"k1", "m"⟩]
      ∧ (handleEncryptedToDeviceEvent ⟨{"k0"}, [], []⟩ ⟨"k1", "m"⟩).dispatched = [])
    ∧ ((drainPendingEvents ⟨{"k0"}, [], []⟩).dispatched = [] ++ List.filter
          (fun x => decide (x.senderKey ∈ ({"k0"} : Finset String))) []
      ∧ (drainPendingEvents ⟨{"k0"}, [], []⟩).pendingEncryptedEvents
        = List.filter (fun x => decide (x.senderKey ∉ ({"k0"} : Finset String))) [])
    ∧ (drainPendingEvents (drainPendingEvents ⟨{"k0"}, [], []⟩)).dispatched
        = (drainPendingEvents ⟨{"k0"}, [], []⟩).dispatched
    ∧ ((⟨"k1", "m"⟩ : EncryptedToDeviceEvent) ∈ (drainPendingEvents
          (addOlmSessionFor (handleEncryptedToDeviceEvent ⟨{"k0"}, [], []⟩ ⟨"k1", "m"⟩)
            (EncryptedToDeviceEvent.senderKey ⟨"k1", "m"⟩))).dispatched
      ∧ (⟨"k1", "m"⟩ : EncryptedToDeviceEvent) ∉ (drainPendingEvents
          (addOlmSessionFor (handleEncryptedToDeviceEvent ⟨{"k0"}, [], []⟩ ⟨"k1", "m"⟩)
            (EncryptedToDeviceEvent.senderKey ⟨"k1", "m"⟩))).pendingEncryptedEvents) :=
  pending_encrypted_events_drained_once ⟨{"k0"}, [], []⟩ ⟨"k1", "m"⟩ (by decide)

/-! ### Outbound Megolm session rotation (encryptionUpdate /
sendSessionKeyToDevices) -/

/-- Modelled from the spec: the per-room outbound Megolm state — the current
outbound session (by session id), a freshness counter from which new
session ids are drawn, and the `sent_megolm_sessions` recipient records.
Session ids are modelled as naturals so that freshness is expressible. -/
structure OutboundMegolmState where
  currentOutboundSession : Option Nat
  nextSessionId : Nat
  sentRecords : List (SentKeyRecord Nat)
  deriving DecidableEq, Repr

/-- Well-formedness: the current session id and every recorded session id
were drawn from the freshness counter. -/
def OutboundMegolmWF (st : OutboundMegolmState) : Prop :=
  (∀ s, st.currentOutboundSession = some s → s < st.nextSessionId)
  ∧ (∀ r ∈ st.sentRecords, r.sessionId < st.nextSessionId)

/-- Modelled from the spec: `encryptionUpdate` "invalidates affected
outbound group sessions" when a room's encryption-relevant membership
changes. -/
def invalidateOutboundSession (st : OutboundMegolmState) : OutboundMegolmState :=
  { st with currentOutboundSession := none }

/-- Modelled from the spec: `ensureOutbound(roomId, recipients)` — reuse the
current session, or create a fresh one (fresh session id) if it was
invalidated or none exists. -/
def ensureOutboundSession (st : OutboundMegolmState) : Nat × OutboundMegolmState :=
  match st.currentOutboundSession with
  | some s => (s, st)
  | none =>
    (st.nextSessionId,
     { st with currentOutboundSession := some st.nextSessionId,
               nextSessionId := st.nextSessionId + 1 })

/-- Modelled from the spec:
`ConnectionEncryptionData::sendSessionKeyToDevices` (only declared under
src/) — "compute the devices still missing the current (sessionId, index)
via KeyStore", Olm-encrypt the `m.room_key` payload per recipient, send,
and "mark recipients on success". Returns the session id used, the
distribution target list, and the updated state. -/
def sendSessionKeyToDevices (st : OutboundMegolmState) (roomId : String)
    (devices : List (String × String)) :
    (Nat × List (String × String)) × OutboundMegolmState :=
  let p := ensureOutboundSession st
  let targets := devicesWithoutKey p.2.sentRecords roomId devices p.1
  let recs := setDevicesReceivedKey p.2.sentRecords roomId
    (targets.map (fun d => (d.1, d.2, ""))) p.1 0
  ((p.1, targets), { p.2 with sentRecords := recs })

/-- C7: if the current outbound session is s₁ and `encryptionUpdate`
invalidates it (a recipient left the room), the next send uses a fresh
session id different from s₁ and distributes the new key exactly to the
remaining member devices passed in. -/
theorem fresh_session_after_invalidate
    (st : OutboundMegolmState) (roomId : String) (s₁ : Nat)
    (remaining : List (String × String))
    (hcur : st.currentOutboundSession = some s₁)
    (hwf : OutboundMegolmWF st) :
    (sendSessionKeyToDevices (invalidateOutboundSession st) roomId remaining).1
      = (st.nextSessionId, remaining)
    ∧ st.nextSessionId ≠ s₁ := by
  constructor
  · have htargets : devicesWithoutKey st.sentRecords roomId remaining
        st.nextSessionId = remaining := by
      apply List.filter_eq_self.mpr
      intro d _
      simp only [sentKeyRecorded, Bool.not_eq_eq_eq_not, Bool.not_true,
        List.any_eq_false, decide_eq_true_eq]
      intro r hr
      rintro ⟨-, hsid, -, -⟩
      exact absurd hsid (Nat.ne_of_lt (hwf.2 r hr))
    simp only [sendSessionKeyToDevices, ensureOutboundSession,
      invalidateOutboundSession]
    simp [htargets]
  · exact fun h => absurd (hwf.1 s₁ hcur) (by omega)

/-- C7 witness: concrete instantiation of `fresh_session_after_invalidate`
— room with prior session 0 distributed to two devices; after
invalidation, the next send uses session 1 and targets only the remaining
device. -/
theorem fresh_session_after_invalidate_witness :
    (sendSessionKeyToDevices
        (invalidateOutboundSession
          ⟨some 0, 1, [⟨"!r", 0, "A", "d1", "cA", 0⟩, ⟨"!r", 0, "B", "d1", "cB", 0⟩]⟩)
        "!r" [("A", "d1")]).1
      = (1, [("A", "d1")])
    ∧ (1 : Nat) ≠ 0 :=
  fresh_session_after_invalidate
    ⟨some 0, 1, [⟨"!r", 0, "A", "d1", "cA", 0⟩, ⟨"!r", 0, "B", "d1", "cB", 0⟩]⟩
    "!r" 0 [("A", "d1")] (by rfl)
    (by constructor
        · intro s hs
          have hs0 : (some 0 : Option Nat) = some s := hs
          cases hs0
          decide
        · intro r hr
          simp only [List.mem_cons, List.not_mem_nil, or_false] at hr
          rcases hr with h | h <;> simp [h])

/-! ### Olm session load ordering (Database::loadOlmSessions) -/

/-- A stored Olm session row of the `olm_sessions(senderKey, sessionId,
pickle, lastReceived)` table. -/
structure StoredOlmSession where
  senderKey : String
  sessionId : String
  lastReceived : Int
  deriving DecidableEq, Repr

/-- The load order of the spec: `lastReceived` descending, tiebreak by
sessionId ascending. -/
def olmSessionBefore (a b : StoredOlmSession) : Prop :=
  b.lastReceived < a.lastReceived
  ∨ (a.lastReceived = b.lastReceived ∧ a.sessionId ≤ b.sessionId)

instance (a b : StoredOlmSession) : Decidable (olmSessionBefore a b) := by
  unfold olmSessionBefore
  infer_instance

theorem olmSessionBefore_total (a b : StoredOlmSession)
    (h : ¬olmSessionBefore a b) : olmSessionBefore b a := by
  unfold olmSessionBefore at h ⊢
  push_neg at h
  rcases lt_or_eq_of_le h.1 with hlt | heq
  · exact Or.inl hlt
  · exact Or.inr ⟨heq.symm, le_of_lt (h.2 heq)⟩

/-- Sorted insertion wrt `olmSessionBefore`. -/
def insertOlmSession (s : StoredOlmSession) :
    List StoredOlmSession → List StoredOlmSession
  | [] => [s]
  | t :: ts =>
    if olmSessionBefore s t then s :: t :: ts else t :: insertOlmSession s ts

/-- Insertion sort wrt `olmSessionBefore`. -/
def sortOlmSessions : List StoredOlmSession → List StoredOlmSession
  | [] => []
  | s :: ss => insertOlmSession s (sortOlmSessions ss)

/-- Modelled from the spec: `Database::loadOlmSessions` (only declared in
src/Quotient/database.h) — `loadOlmSessions() → map[senderKey → ordered
list]`; "Ordering on load: by `lastReceived` descending, tiebreak by
sessionId ascending". The map is modelled as the function from a sender
key to its ordered list. -/
def loadOlmSessions (store : List StoredOlmSession) (senderKey : String) :
    List StoredOlmSession :=
  sortOlmSessions (store.filter (fun s => decide (s.senderKey = senderKey)))

theorem insertOlmSession_perm (s : StoredOlmSession)
    (l : List StoredOlmSession) : List.Perm (insertOlmSession s l) (s :: l) := by
  induction l with
  | nil => rfl
  | cons t ts ih =>
    by_cases h : olmSessionBefore s t
    · simp [insertOlmSession, h]
    · have hstep : List.Perm (t :: insertOlmSession s ts) (s :: t :: ts) :=
        (ih.cons t).trans (List.Perm.swap s t ts)
      simpa [insertOlmSession, h] using hstep

theorem olmSessionBefore_trans {a b c : StoredOlmSession}
    (hab : olmSessionBefore a b) (hbc : olmSessionBefore b c) :
    olmSessionBefore a c := by
  rcases hab with hab | hab
  · rcases hbc with hbc | hbc
    · exact Or.inl (lt_trans hbc hab)
    · exact Or.inl (lt_of_eq_of_lt hbc.1.symm hab)
  · rcases hbc with hbc | hbc
    · exact Or.inl (lt_of_lt_of_eq hbc hab.1.symm)
    · exact Or.inr ⟨hab.1.trans hbc.1, hab.2.trans hbc.2⟩

theorem insertOlmSession_pairwise (s : StoredOlmSession)
    (l : List StoredOlmSession) (hl : l.Pairwise olmSessionBefore) :
    (insertOlmSession s l).Pairwise olmSessionBefore := by
  induction l with
  | nil => simp [insertOlmSession]
  | cons t ts ih =>
    rcases List.pairwise_cons.mp hl with ⟨ht, hts⟩
    by_cases h : olmSessionBefore s t
    · rw [insertOlmSession, if_pos h]
      refine List.pairwise_cons.mpr ⟨?_, hl⟩
      intro x hx
      rcases List.mem_cons.mp hx with hx | hx
      · subst hx; exact h
      · exact olmSessionBefore_trans h (ht x hx)
    · rw [insertOlmSession, if_neg h]
      refine List.pairwise_cons.mpr ⟨?_, ih hts⟩
      intro x hx
      rcases List.mem_cons.mp ((insertOlmSession_perm s ts).mem_iff.mp hx) with h1 | h1
      · exact h1.symm ▸ olmSessionBefore_total s t h
      · exact ht x h1

theorem sortOlmSessions_perm (l : List StoredOlmSession) :
    List.Perm (sortOlmSessions l) l := by
  induction l with
  | nil => rfl
  | cons s ss ih =>
    exact (insertOlmSession_perm s (sortOlmSessions ss)).trans (ih.cons s)

theorem sortOlmSessions_pairwise (l : List StoredOlmSession) :
    (sortOlmSessions l).Pairwise olmSessionBefore := by
  induction l with
  | nil => simp [sortOlmSessions]
  | cons s ss ih => exact insertOlmSession_pairwise s (sortOlmSessions ss) ih

/-- C8: for every stored session set and sender key, `loadOlmSessions`
returns exactly the stored sessions of that sender key (as a permutation
of the filtered store), ordered by `lastReceived` descending with ties
broken by sessionId ascending. -/
theorem loadOlmSessions_ordered (store : List StoredOlmSession)
    (senderKey : String) :
    (loadOlmSessions store senderKey).Pairwise olmSessionBefore
    ∧ List.Perm (loadOlmSessions store senderKey)
        (store.filter (fun s => decide (s.senderKey = senderKey)))
    ∧ ∀ s ∈ loadOlmSessions store senderKey, s.senderKey = senderKey := by
  refine ⟨sortOlmSessions_pairwise _, sortOlmSessions_perm _, ?_⟩
  intro s hs
  have := (sortOlmSessions_perm _).mem_iff.mp hs
  simpa using (List.mem_filter.mp this).2

/-- C8 witness: concrete instantiation of `loadOlmSessions_ordered` on a
store with three sessions of one sender key (two tied timestamps) and one
of another. -/
theorem loadOlmSessions_ordered_witness :
    (loadOlmSessions
        [⟨"K", "s2", 5⟩, ⟨"K", "s1", 5⟩, ⟨"L", "s0", 9⟩, ⟨"K", "s3", 7⟩]
        "K").Pairwise olmSessionBefore
    ∧ List.Perm (loadOlmSessions
        [⟨"K", "s2", 5⟩, ⟨"K", "s1", 5⟩, ⟨"L", "s0", 9⟩, ⟨"K", "s3", 7⟩] "K")
        (List.filter (fun s => decide (s.senderKey = "K"))
            [⟨"K", "s2", 5⟩, ⟨"K", "s1", 5⟩, ⟨"L", "s0", 9⟩, ⟨"K", "s3", 7⟩])
    ∧ ∀ s ∈ loadOlmSessions
        [⟨"K", "s2", 5⟩, ⟨"K", "s1", 5⟩, ⟨"L", "s0", 9⟩, ⟨"K", "s3", 7⟩] "K",
        s.senderKey = "K" :=
  loadOlmSessions_ordered
    [⟨"K", "s2", 5⟩, ⟨"K", "s1", 5⟩, ⟨"L", "s0", 9⟩, ⟨"K", "s3", 7⟩] "K"

/-! ### Key-verification session registry (setupKeyVerificationSession,
src/Quotient/connectionencryptiondata_p.h lines 81-94) -/

/-- A key-verification session: its transaction id and its interactive
state (opaque here; the interactive machine is out of scope). -/
structure KeyVerificationSession where
  transactionId : String
  sasState : Nat
  deriving DecidableEq, Repr

/-- QHash insert: `QHash::insert` replaces any existing entry at the key. -/
def qhashInsert {V : Type} (k : String) (v : V) (m : List (String × V)) :
    List (String × V) :=
  (k, v) :: m.filter (fun p => decide (p.1 ≠ k))

/-- QHash remove: `QHash::remove` deletes the entry at the key. -/
def qhashRemove {V : Type} (k : String) (m : List (String × V)) :
    List (String × V) :=
  m.filter (fun p => decide (p.1 ≠ k))

/-- QHash lookup by key. -/
def qhashLookup {V : Type} (k : String) (m : List (String × V)) : Option V :=
  (m.find? (fun p => decide (p.1 = k))).map (·.2)

/-- The in-memory state of `ConnectionEncryptionData`
(src/Quotient/connectionencryptiondata_p.h lines 20-38): the Olm account,
the Olm session cache, the verification-session registry keyed by
transaction id, the tracking sets, the device-keys view, the tried-device
set, the flags, the pending-event buffer and the persistent key store. -/
structure ConnectionEncryptionData where
  olmAccount : QOlmAccount
  olmSessions : List StoredOlmSession
  verificationSessions : List (String × KeyVerificationSession)
  trackedUsers : Finset String
  outdatedUsers : Finset String
  deviceKeys : List (String × String × String)
  triedDevices : Finset (String × String)
  encryptionUpdateRequired : Bool
  oneTimeKeysCount : List (String × Nat)
  pendingEncryptedEvents : List EncryptedToDeviceEvent
  isUploadingKeys : Bool
  firstSync : Bool
  keyStore : GroupIndexStore
  deriving DecidableEq

/-- Embedded from src/Quotient/connectionencryptiondata_p.h lines 81-94:
`setupKeyVerificationSession` constructs the session and inserts it into
`verificationSessions` under `session->transactionId()`. -/
def setupKeyVerificationSession (st : ConnectionEncryptionData)
    (session : KeyVerificationSession) : ConnectionEncryptionData :=
  { st with verificationSessions :=
      qhashInsert session.transactionId session st.verificationSessions }

/-- Embedded from src/Quotient/connectionencryptiondata_p.h lines 88-91:
the `QObject::destroyed` handler captures only the transaction id and runs
`verificationSessions.remove(txnId)`. -/
def onVerificationSessionDestroyed (st : ConnectionEncryptionData)
    (txnId : String) : ConnectionEncryptionData :=
  { st with verificationSessions := qhashRemove txnId st.verificationSessions }

theorem find?_filter_ne_key {V : Type} (k k' : String)
    (m : List (String × V)) (hne : k' ≠ k) :
    (m.filter (fun p => decide (p.1 ≠ k))).find? (fun p => decide (p.1 = k'))
      = m.find? (fun p => decide (p.1 = k')) := by
  induction m with
  | nil => rfl
  | cons p ps ih =>
    rw [List.filter_cons]
    by_cases hpk : p.1 = k'
    · have hp : p.1 ≠ k := by rw [hpk]; exact hne
      rw [if_pos (by simpa using hp),
        List.find?_cons_of_pos _ (by simpa using hpk),
        List.find?_cons_of_pos _ (by simpa using hpk)]
    · by_cases hp : p.1 = k
      · rw [if_neg (by simp [hp]),
          List.find?_cons_of_neg _ (by simpa using hpk), ih]
      · rw [if_pos (by simpa using hp),
          List.find?_cons_of_neg _ (by simpa using hpk),
          List.find?_cons_of_neg _ (by simpa using hpk), ih]

theorem qhashLookup_qhashRemove_self {V : Type} (k : String)
    (m : List (String × V)) : qhashLookup k (qhashRemove k m) = none := by
  unfold qhashLookup qhashRemove
  have hnone : (m.filter (fun p => decide (p.1 ≠ k))).find?
      (fun p => decide (p.1 = k)) = none := by
    apply List.find?_eq_none.mpr
    intro x hx
    have hxk := (List.mem_filter.mp hx).2
    simpa using hxk
  rw [hnone]
  rfl

theorem qhashLookup_qhashRemove_other {V : Type} (k k' : String)
    (m : List (String × V)) (hne : k' ≠ k) :
    qhashLookup k' (qhashRemove k m) = qhashLookup k' m := by
  unfold qhashLookup qhashRemove
  rw [find?_filter_ne_key k k' m hne]

/-- C9: `setupKeyVerificationSession` registers the session in the
coordinator map keyed by its transaction id (other keys unchanged), and the
destruction handler removes exactly that map entry — the entry at the
transaction id is gone, every other key is untouched, and every other
coordinator field (account, Olm sessions, device keys, tracked/outdated
sets, tried devices, flags, one-time-key counts, pending events, key
store) is unchanged. -/
theorem verification_session_registry_frame
    (st : ConnectionEncryptionData) (session : KeyVerificationSession)
    (k : String) (hne : k ≠ session.transactionId) :
    qhashLookup session.transactionId
        (setupKeyVerificationSession st session).verificationSessions
      = some session
    ∧ qhashLookup k (setupKeyVerificationSession st session).verificationSessions
      = qhashLookup k st.verificationSessions
    ∧ qhashLookup session.transactionId
        (onVerificationSessionDestroyed st session.transactionId).verificationSessions
      = none
    ∧ qhashLookup k
        (onVerificationSessionDestroyed st session.transactionId).verificationSessions
      = qhashLookup k st.verificationSessions
    ∧ (onVerificationSessionDestroyed st session.transactionId).olmAccount
        = st.olmAccount
    ∧ (onVerificationSessionDestroyed st session.transactionId).olmSessions
        = st.olmSessions
    ∧ (onVerificationSessionDestroyed st session.transactionId).trackedUsers
        = st.trackedUsers
    ∧ (onVerificationSessionDestroyed st session.transactionId).outdatedUsers
        = st.outdatedUsers
    ∧ (onVerificationSessionDestroyed st session.transactionId).deviceKeys
        = st.deviceKeys
    ∧ (onVerificationSessionDestroyed st session.transactionId).triedDevices
        = st.triedDevices
    ∧ (onVerificationSessionDestroyed st session.transactionId).encryptionUpdateRequired
        = st.encryptionUpdateRequired
    ∧ (onVerificationSessionDestroyed st session.transactionId).oneTimeKeysCount
        = st.oneTimeKeysCount
    ∧ (onVerificationSessionDestroyed st session.transactionId).pendingEncryptedEvents
        = st.pendingEncryptedEvents
    ∧ (onVerificationSessionDestroyed st session.transactionId).isUploadingKeys
        = st.isUploadingKeys
    ∧ (onVerificationSessionDestroyed st session.transactionId).firstSync
        = st.firstSync
    ∧ (onVerificationSessionDestroyed st session.transactionId).keyStore
        = st.keyStore := by
  refine ⟨?_, ?_, ?_, ?_, rfl, rfl, rfl, rfl, rfl, rfl, rfl, rfl, rfl, rfl,
    rfl, rfl⟩
  · simp [setupKeyVerificationSession, qhashInsert, qhashLookup]
  · show qhashLookup k ((session.transactionId, session) ::
      st.verificationSessions.filter
        (fun p => decide (p.1 ≠ session.transactionId)))
      = qhashLookup k st.verificationSessions
    unfold qhashLookup
    rw [List.find?_cons_of_neg _
        (by simp only [decide_eq_true_eq]; exact fun h => hne h.symm),
      find?_filter_ne_key session.transactionId k st.verificationSessions hne]
  · exact qhashLookup_qhashRemove_self session.transactionId
      st.verificationSessions
  · exact qhashLookup_qhashRemove_other session.transactionId k
      st.verificationSessions hne

/-- A concrete coordinator state used to witness the C9 frame theorem. -/
def c9State : ConnectionEncryptionData :=
  ⟨⟨⟨"ed", "cu"⟩⟩, [⟨"K", "s1", 4⟩], [("t0", ⟨"t0", 0⟩)], {"u1"}, {"u1"},
    [("u1", "d1", "c1")], {("u1", "d1")}, false, [("k", 2)], [⟨"K", "m"⟩],
    false, true, [(("!r", "S", 0), ("$e", 1))]⟩

/-- C9 witness: concrete instantiation of
`verification_session_registry_frame` with a registry holding one other
session. -/
theorem verification_session_registry_frame_witness :
    qhashLookup (KeyVerificationSession.transactionId ⟨"txn", 1⟩)
        (setupKeyVerificationSession c9State ⟨"txn", 1⟩).verificationSessions
      = some ⟨"txn", 1⟩
    ∧ qhashLookup "t0"
        (setupKeyVerificationSession c9State ⟨"txn", 1⟩).verificationSessions
      = qhashLookup "t0" c9State.verificationSessions
    ∧ qhashLookup (KeyVerificationSession.transactionId ⟨"txn", 1⟩)
        (onVerificationSessionDestroyed c9State
          (KeyVerificationSession.transactionId ⟨"txn", 1⟩)).verificationSessions
      = none
    ∧ qhashLookup "t0"
        (onVerificationSessionDestroyed c9State
          (KeyVerificationSession.transactionId ⟨"txn", 1⟩)).verificationSessions
      = qhashLookup "t0" c9State.verificationSessions
    ∧ (onVerificationSessionDestroyed c9State
        (KeyVerificationSession.transactionId ⟨"txn", 1⟩)).olmAccount
      = c9State.olmAccount
    ∧ (onVerificationSessionDestroyed c9State
        (KeyVerificationSession.transactionId ⟨"txn", 1⟩)).olmSessions
      = c9State.olmSessions
    ∧ (onVerificationSessionDestroyed c9State
        (KeyVerificationSession.transactionId ⟨"txn", 1⟩)).trackedUsers
      = c9State.trackedUsers
    ∧ (onVerificationSessionDestroyed c9State
        (KeyVerificationSession.transactionId ⟨"txn", 1⟩)).outdatedUsers
      = c9State.outdatedUsers
    ∧ (onVerificationSessionDestroyed c9State
        (KeyVerificationSession.transactionId ⟨"txn", 1⟩)).deviceKeys
      = c9State.deviceKeys
    ∧ (onVerificationSessionDestroyed c9State
        (KeyVerificationSession.transactionId ⟨"txn", 1⟩)).triedDevices
      = c9State.triedDevices
    ∧ (onVerificationSessionDestroyed c9State
        (KeyVerificationSession.transactionId ⟨"txn", 1⟩)).encryptionUpdateRequired
      = c9State.encryptionUpdateRequired
    ∧ (onVerificationSessionDestroyed c9State
        (KeyVerificationSession.transactionId ⟨"txn", 1⟩)).oneTimeKeysCount
      = c9State.oneTimeKeysCount
    ∧ (onVerificationSessionDestroyed c9State
        (KeyVerificationSession.transactionId ⟨"txn", 1⟩)).pendingEncryptedEvents
      = c9State.pendingEncryptedEvents
    ∧ (onVerificationSessionDestroyed c9State
        (KeyVerificationSession.transactionId ⟨"txn", 1⟩)).isUploadingKeys
      = c9State.isUploadingKeys
    ∧ (onVerificationSessionDestroyed c9State
        (KeyVerificationSession.transactionId ⟨"txn", 1⟩)).firstSync
      = c9State.firstSync
    ∧ (onVerificationSessionDestroyed c9State
        (KeyVerificationSession.transactionId ⟨"txn", 1⟩)).keyStore
      = c9State.keyStore :=
  verification_session_registry_frame c9State ⟨"txn", 1⟩ "t0" (by decide)

/-! ### EventFactory (src/lib/events/event.h lines 146-153) -/

/-- Embedded from src/lib/events/event.h: a registered factory method takes
the event JSON and the matrix type string and returns an event or null.
The JSON, type-string and event types are parameters of the embedding. -/
def EventFactoryMake {J S E : Type} (factories : List (J → S → Option E))
    (json : J) (matrixType : S) : Option E :=
  match factories with
  | [] => none
  | f :: fs =>
    match f json matrixType with
    | some e => some e
    | none => EventFactoryMake fs json matrixType

theorem EventFactoryMake_all_none {J S E : Type}
    (fs : List (J → S → Option E)) (json : J) (matrixType : S)
    (h : ∀ g ∈ fs, g json matrixType = none) :
    EventFactoryMake fs json matrixType = none := by
  induction fs with
  | nil => rfl
  | cons f gs ih =>
    have hf := h f (List.mem_cons_self f gs)
    rw [EventFactoryMake, hf]
    exact ih (fun g hg => h g (List.mem_cons_of_mem f hg))

/-- C10: `EventFactory::make` tries the registered factory methods in
registration order and returns the result of the first method that
produces a non-null event; if no registered factory recognises the
(json, matrixType) pair it returns null rather than raising an error. -/
theorem EventFactoryMake_first_non_null {J S E : Type}
    (l₁ l₂ fs : List (J → S → Option E)) (f : J → S → Option E)
    (json : J) (matrixType : S) (e : E)
    (h₁ : ∀ g ∈ l₁, g json matrixType = none)
    (hf : f json matrixType = some e)
    (hall : ∀ g ∈ fs, g json matrixType = none) :
    EventFactoryMake (l₁ ++ f :: l₂) json matrixType = some e
    ∧ EventFactoryMake fs json matrixType = none := by
  constructor
  · induction l₁ with
    | nil => rw [List.nil_append, EventFactoryMake, hf]
    | cons g gs ih =>
      have hg := h₁ g (List.mem_cons_self g gs)
      rw [List.cons_append, EventFactoryMake, hg]
      exact ih (fun x hx => h₁ x (List.mem_cons_of_mem g hx))
  · exact EventFactoryMake_all_none fs json matrixType hall

/-- C10 witness: concrete instantiation of `EventFactoryMake_first_non_null`
with one non-matching factory before the matching one. -/
theorem EventFactoryMake_first_non_null_witness :
    EventFactoryMake
        ([fun (_ : Nat) (_ : Nat) => (none : Option Nat)]
          ++ (fun (j : Nat) (_ : Nat) => some (j + 1))
            :: [fun (_ : Nat) (_ : Nat) => some 0]) 4 7
      = some 5
    ∧ EventFactoryMake [fun (_ : Nat) (_ : Nat) => (none : Option Nat)] 4 7
      = none :=
  EventFactoryMake_first_non_null
    [fun _ _ => none] [fun _ _ => some 0] [fun _ _ => none]
    (fun j _ => some (j + 1)) 4 7 5
    (by intro g hg; simp only [List.mem_singleton] at hg; rw [hg])
    (by rfl)
    (by intro g hg; simp only [List.mem_singleton] at hg; rw [hg])

end LibQuotient
